import Mathlib

/-
Verification of the quoting and rendering algorithm of the command-unquoted
crate (src/src/lib.rs). Words are modelled as lists of characters: the crate
receives OsStr data and lossily converts it to text before the algorithm runs,
so the algorithm itself only ever sees a sequence of characters.

Named characters are used throughout instead of escaped literals.
-/

/-- The single-quote character U+0027. -/
def squote : Char := Char.ofNat 39

/-- The double-quote character U+0022. -/
def dquote : Char := Char.ofNat 34

/-- The backslash character U+005C. -/
def backslashChar : Char := Char.ofNat 92

/-- The backtick character U+0060, the delimiter used by the renderer. -/
def backtick : Char := Char.ofNat 96

/-- The horizontal tab character U+0009. -/
def tabChar : Char := Char.ofNat 9

/-- The newline character U+000A. -/
def newlineChar : Char := Char.ofNat 10

/-- The opening brace character U+007B. -/
def lbrace : Char := Char.ofNat 123

/-- The closing brace character U+007D. -/
def rbrace : Char := Char.ofNat 125

/-- Characters that keep special meaning inside double quotes; embeds the
array on lines 84-91 of src/src/lib.rs (dollar, backtick, backslash,
double quote, at sign, exclamation mark). -/
def specialWithinDouble (c : Char) : Bool :=
  c == '$' || c == backtick || c == backslashChar || c == dquote || c == '@' || c == '!'

/-- The broader set of shell-special characters; embeds the array on lines
94-105 of src/src/lib.rs. -/
def otherSpecial (c : Char) : Bool :=
  c == '|' || c == '&' || c == ';' || c == '<' || c == '>' || c == '(' || c == ')' ||
  c == ' ' || c == tabChar || c == newlineChar ||
  c == '*' || c == '?' || c == '[' || c == '#' || c == '~' || c == '%' ||
  c == ']' || c == lbrace || c == rbrace

/-- The character-by-character single-quote escaping loop on lines 115-121 of
src/src/lib.rs: each single-quote character becomes the four-character
sequence quote-backslash-quote-quote, every other character passes through. -/
def escapeSingle : List Char → List Char
  | [] => []
  | c :: rest =>
    (if c = squote then [squote, backslashChar, squote, squote] else [c]) ++ escapeSingle rest

/-- The quoting algorithm, embedding Display for Quoted (lines 76-131 of
src/src/lib.rs). The let-bound booleans of the source are inlined:
has_single_quote is s.contains squote, has_special_within_double is
s.any specialWithinDouble, and has_special is their disjunction with
s.any otherSpecial. -/
def quote (s : List Char) : List Char :=
  if s = [] then [squote, squote]
  else if s.contains squote && !(s.any specialWithinDouble) then
    dquote :: (s ++ [dquote])
  else if s.contains squote || s.any specialWithinDouble || s.any otherSpecial then
    if s.contains squote then
      squote :: (escapeSingle s ++ [squote])
    else
      squote :: (s ++ [squote])
  else
    s

/-- The reserved shell words on lines 35-40 of src/src/lib.rs, in source
order, as character lists. -/
def RESERVED_COMMAND_WORDS : List (List Char) :=
  ["case".data, "do".data, "done".data, "elif".data, "else".data, "esac".data,
   "fi".data, "for".data, "function".data, "if".data, "in".data, "select".data,
   "then".data, "time".data, "until".data, "while".data]

/-- Strict lexicographic order on character lists, the order Rust uses to
compare string slices (byte order coincides with character order on the
ASCII-only reserved words). -/
def strLt : List Char → List Char → Bool
  | _, [] => false
  | [], _ :: _ => true
  | a :: as, b :: bs =>
    if a < b then true
    else if b < a then false
    else strLt as bs

/-- The environment loop on lines 51-55 of src/src/lib.rs: pairs with an
absent value are skipped; present pairs are emitted as
quote(name)=quote(value) followed by one space, in input order. -/
def renderEnv : List (List Char × Option (List Char)) → List Char
  | [] => []
  | (_, none) :: rest => renderEnv rest
  | (n, some v) :: rest => quote n ++ '=' :: (quote v ++ ' ' :: renderEnv rest)

/-- The program emission on lines 57-65 of src/src/lib.rs. In the source the
membership test is RESERVED_COMMAND_WORDS.binary_search(s).is_ok(), applied
to the program converted to text; binary search on the strictly sorted word
table (theorem reserved_command_words_sorted below) succeeds exactly on
members, so the test is embedded as list membership. Words here are already
text, so the to_str conversion always succeeds. -/
def renderProgram (p : List Char) : List Char :=
  if RESERVED_COMMAND_WORDS.contains p then squote :: (p ++ [squote]) else quote p

/-- The argument loop on lines 67-69 of src/src/lib.rs: each argument is
emitted as one space followed by its quoted form, in input order. -/
def renderArgs : List (List Char) → List Char
  | [] => []
  | a :: rest => ' ' :: (quote a ++ renderArgs rest)

/-- The Debug implementation for Unquoted (lines 48-72 of src/src/lib.rs):
a backtick, the environment assignments, the program word, the arguments,
and a closing backtick. -/
def render (p : List Char) (args : List (List Char))
    (env : List (List Char × Option (List Char))) : List Char :=
  backtick :: (renderEnv env ++ renderProgram p ++ renderArgs args ++ [backtick])

/-- Helper: escapeSingle is the per-character flat map that replaces each
single quote by the four-character escape and keeps other characters. -/
theorem escapeSingle_flatMap (s : List Char) :
    escapeSingle s =
      s.flatMap (fun c => if c = squote then [squote, backslashChar, squote, squote] else [c]) := by
  induction s with
  | nil => rfl
  | cons c rest ih => simp [escapeSingle, ih]

/-- Helper: a word containing a single quote is nonempty. -/
theorem ne_nil_of_contains_squote {s : List Char} (h : s.contains squote = true) : s ≠ [] := by
  rintro rfl
  simp at h

/-- Helper: renderEnv as filter of the present pairs followed by a flat map. -/
theorem renderEnv_flatten (env : List (List Char × Option (List Char))) :
    renderEnv env =
      ((env.filterMap fun nv => nv.2.map fun v => (nv.1, v)).map
        fun nv => quote nv.1 ++ '=' :: (quote nv.2 ++ [' '])).flatten := by
  induction env with
  | nil => rfl
  | cons nv rest ih =>
    obtain ⟨n, vo⟩ := nv
    cases vo <;> simp [renderEnv, ih]

/-- Helper: renderArgs as a flat map over the argument list. -/
theorem renderArgs_flatten (args : List (List Char)) :
    renderArgs args = (args.map fun a => ' ' :: quote a).flatten := by
  induction args with
  | nil => rfl
  | cons a rest ih => simp [renderArgs, ih]

/-- Helper: the input is a subsequence of its single-quote escaping. -/
theorem sublist_escapeSingle (s : List Char) : List.Sublist s (escapeSingle s) := by
  induction s with
  | nil => exact List.Sublist.refl []
  | cons c rest ih =>
    by_cases h : c = squote
    · subst h
      simp only [escapeSingle, if_pos rfl, List.cons_append, List.nil_append]
      exact List.Sublist.cons₂ _ (List.Sublist.cons _ (List.Sublist.cons _ (List.Sublist.cons _ ih)))
    · simp only [escapeSingle, if_neg h, List.singleton_append]
      exact List.Sublist.cons₂ _ ih

/-- C1: a word that contains a single-quote character but none of the
characters that stay special inside double quotes is returned wrapped
verbatim in double quotes, with no internal escaping, whatever other
special characters it may contain. -/
theorem quote_single_quote_uses_double_quotes (s : List Char)
    (h1 : s.contains squote = true) (h2 : s.any specialWithinDouble = false) :
    quote s = dquote :: (s ++ [dquote]) := by
  have hne : s ≠ [] := ne_nil_of_contains_squote h1
  unfold quote
  rw [if_neg hne, h1, h2]
  simp

/-- Witness for C1 at the word meow-quote-s. -/
theorem quote_single_quote_uses_double_quotes_w :
    quote ("meow".data ++ squote :: "s".data) =
      dquote :: (("meow".data ++ squote :: "s".data) ++ [dquote]) :=
  quote_single_quote_uses_double_quotes _ (by decide) (by decide)

/-- C2: a word that contains a single quote and at least one character that
is special within double quotes is single-quoted character by character:
each literal single quote becomes the four-character sequence
quote-backslash-quote-quote, every other character passes through unchanged,
and the whole is bracketed by single quotes. -/
theorem quote_single_quote_and_special_escapes (s : List Char)
    (h1 : s.contains squote = true) (h2 : s.any specialWithinDouble = true) :
    quote s =
      squote ::
        (s.flatMap (fun c => if c = squote then [squote, backslashChar, squote, squote] else [c])
          ++ [squote]) := by
  have hne : s ≠ [] := ne_nil_of_contains_squote h1
  unfold quote
  rw [if_neg hne, h1, h2, escapeSingle_flatMap]
  simp

/-- Witness for C2 at the word dollar-meow-quote-s. -/
theorem quote_single_quote_and_special_escapes_w :
    quote ("$meow".data ++ squote :: "s".data) =
      squote ::
        (("$meow".data ++ squote :: "s".data).flatMap
            (fun c => if c = squote then [squote, backslashChar, squote, squote] else [c])
          ++ [squote]) :=
  quote_single_quote_and_special_escapes _ (by decide) (by decide)

/-- C3: a word with no single quote that contains some double-quote-unsafe
or other shell-special character is wrapped verbatim in single quotes. -/
theorem quote_special_no_single_quote (s : List Char)
    (h1 : s.contains squote = false)
    (h2 : (s.any specialWithinDouble || s.any otherSpecial) = true) :
    quote s = squote :: (s ++ [squote]) := by
  have hne : s ≠ [] := by
    rintro rfl
    simp at h2
  unfold quote
  rw [if_neg hne, h1]
  simp only [Bool.or_eq_true] at h2
  rcases h2 with h | h <;> simp [h]

/-- Witness for C3 at the word meow-space-meow. -/
theorem quote_special_no_single_quote_w :
    quote "meow meow".data = squote :: ("meow meow".data ++ [squote]) :=
  quote_special_no_single_quote _ (by decide) (by decide)

/-- C4 counterexample: the empty word contains none of the special
characters, yet quote does not return it unchanged (it returns the
two-character empty single-quote literal). -/
theorem quote_plain_id_cex :
    ([] : List Char).contains squote = false ∧
      ((([] : List Char).any specialWithinDouble || ([] : List Char).any otherSpecial) = false) ∧
      quote ([] : List Char) ≠ ([] : List Char) := by
  decide

/-- C4 amended: every nonempty word that contains none of the special
characters (single quote, the double-quote-unsafe set, and the other
shell-special set) is returned unchanged, with no quotes or escapes. -/
theorem quote_plain_id (s : List Char) (h0 : s ≠ [])
    (h1 : s.contains squote = false)
    (h2 : (s.any specialWithinDouble || s.any otherSpecial) = false) :
    quote s = s := by
  rw [Bool.or_eq_false_iff] at h2
  unfold quote
  rw [if_neg h0, h1, h2.1, h2.2]
  simp

/-- Witness for the amended C4 at the word meow. -/
theorem quote_plain_id_w : quote "meow".data = "meow".data :=
  quote_plain_id _ (by decide) (by decide) (by decide)

/-- C5: the empty word is quoted as the two-character empty single-quote
literal. -/
theorem quote_empty : quote ([] : List Char) = [squote, squote] := rfl

/-- C6: a program word equal to a reserved command word is emitted wrapped
verbatim in single quotes, bypassing the general quoting algorithm; any
other program word is emitted as quote(program). The special case applies
only to the program position: an argument equal to the reserved word if is
emitted unquoted by the general algorithm, and so are an environment name
and value equal to if. -/
theorem render_reserved_program_special_case :
    (∀ p args env, RESERVED_COMMAND_WORDS.contains p = true →
        render p args env =
          backtick :: (renderEnv env ++ (squote :: (p ++ [squote])) ++ renderArgs args ++ [backtick])) ∧
    (∀ p args env, RESERVED_COMMAND_WORDS.contains p = false →
        render p args env =
          backtick :: (renderEnv env ++ quote p ++ renderArgs args ++ [backtick])) ∧
    render "program".data ["if".data] [] = backtick :: ("program if".data ++ [backtick]) ∧
    render "if".data [] [("if".data, some "if".data)] =
      backtick :: ("if=if ".data ++ squote :: ("if".data ++ [squote, backtick])) := by
  refine ⟨fun p args env h => ?_, fun p args env h => ?_, by decide, by decide⟩
  · unfold render renderProgram
    rw [h]
    simp
  · unfold render renderProgram
    rw [h]
    simp

/-- Witness for C6 at a reserved program (case) and an ordinary one. -/
theorem render_reserved_program_special_case_w :
    (render "case".data [] [] =
        backtick ::
          (renderEnv [] ++ (squote :: ("case".data ++ [squote])) ++ renderArgs [] ++ [backtick])) ∧
    (render "program".data [] [] =
        backtick :: (renderEnv [] ++ quote "program".data ++ renderArgs [] ++ [backtick])) :=
  ⟨render_reserved_program_special_case.1 "case".data [] [] (by decide),
   render_reserved_program_special_case.2.1 "program".data [] [] (by decide)⟩

/-- C7: render skips environment pairs whose value is absent and emits every
present pair, in input order, as quote(name), an equals sign, quote(value)
and a single space. -/
theorem render_env_in_order_skip_absent (p : List Char) (args : List (List Char))
    (env : List (List Char × Option (List Char))) :
    render p args env =
      backtick ::
        (((env.filterMap fun nv => nv.2.map fun v => (nv.1, v)).map
            fun nv => quote nv.1 ++ '=' :: (quote nv.2 ++ [' '])).flatten
          ++ renderProgram p ++ renderArgs args ++ [backtick]) := by
  rw [render, renderEnv_flatten]

/-- C8: the rendered string opens and closes with a backtick and, after the
environment assignments and the program word, each argument appears in
input order preceded by exactly one space and quoted by quote; on the
five-argument example the output is the literal backtick-delimited string
from the test suite. -/
theorem render_delimited_args_quoted :
    (∀ p args env,
        render p args env =
          backtick ::
            (renderEnv env ++ renderProgram p ++ (args.map fun a => ' ' :: quote a).flatten
              ++ [backtick])) ∧
    render "program".data
        ["arg1".data, "arg b".data, "arg".data ++ squote :: "c".data,
         "arg".data ++ dquote :: "d".data, "arg$e".data] [] =
      backtick ::
        ("program arg1 ".data
          ++ squote :: ("arg b".data ++ [squote])
          ++ ' ' :: dquote :: (("arg".data ++ squote :: "c".data) ++ [dquote])
          ++ ' ' :: squote :: (("arg".data ++ dquote :: "d".data) ++ [squote])
          ++ ' ' :: squote :: ("arg$e".data ++ [squote])
          ++ [backtick]) := by
  refine ⟨fun p args env => ?_, by decide⟩
  rw [render, renderArgs_flatten]

/-- C9: the reserved command word table is in strict ascending order, each
entry strictly below its successor in the lexicographic order used by the
binary search on the program word. -/
theorem reserved_command_words_sorted :
    List.Chain' (fun a b => strLt a b = true) RESERVED_COMMAND_WORDS := by
  simp only [RESERVED_COMMAND_WORDS, List.chain'_cons, List.chain'_singleton]
  decide

/-- C10: every character of the input word survives quoting in order: the
input is a subsequence of quote of the input, so quoting only ever inserts
quote and escape characters and never deletes, substitutes, or reorders. -/
theorem quote_preserves_input_subsequence (s : List Char) : List.Sublist s (quote s) := by
  unfold quote
  split
  case isTrue h => subst h; exact List.nil_sublist _
  case isFalse h =>
    split
    case isTrue h2 => exact List.Sublist.cons _ (List.sublist_append_left s [dquote])
    case isFalse h2 =>
      split
      case isTrue h3 =>
        split
        case isTrue h4 =>
          exact List.Sublist.cons _
            ((sublist_escapeSingle s).trans (List.sublist_append_left _ [squote]))
        case isFalse h4 => exact List.Sublist.cons _ (List.sublist_append_left s [squote])
      case isFalse h3 => exact List.Sublist.refl s
